import Mathlib

/-!
Shallow embedding of `src/scraper.py` (class `OutlierDBScraper`): the
extractor `parse_item` and the pagination loop `scrape_items`, together
with proofs of the behavioural properties claimed for them.

Markup fragments are modelled at the parsed-DOM level: a `Frag` records
exactly the pieces of an item card that the Python code queries
(`data-index` attribute, first iframe src, thumbnail src, the
`span.ml-1` counter spans with the `d` attribute of the path found in
their previous sibling, tag spans, description text).  Browser effects
are modelled by an oracle that yields, per cycle, the snapshot of
visible fragments and the outcome of the container-scroll block; a
raised WebDriver exception is a `none` snapshot.
-/

namespace OutlierDB

/-! ### Python string primitives -/

/-- The whitespace characters stripped by Python `str.strip()`. -/
def isPySpace (c : Char) : Bool :=
  c = ' ' || c = '\t' || c = '\n' || c = '\r' || c = '\x0b' || c = '\x0c'

/-- `str.strip()` on a character list. -/
def stripL (l : List Char) : List Char :=
  ((l.dropWhile isPySpace).reverse.dropWhile isPySpace).reverse

/-- `str.strip()`. -/
def pyStrip (s : String) : String := ⟨stripL s.data⟩

/-- Value of a nonempty all-digit character list; `none` otherwise. -/
def digitsToNat : List Char → Option Nat
  | [] => none
  | cs =>
    if cs.all Char.isDigit then
      some (cs.foldl (fun n c => n * 10 + (c.toNat - 48)) 0)
    else none

/-- Python `int(s)` on a decimal string: strips whitespace, allows one
    leading sign, then requires a nonempty digit run.  `none` models the
    `ValueError` that `int` raises on anything else. -/
def parsePyInt (s : String) : Option Int :=
  match stripL s.data with
  | '+' :: cs => (digitsToNat cs).map Int.ofNat
  | '-' :: cs => (digitsToNat cs).map (fun n => -(n : Int))
  | cs => (digitsToNat cs).map Int.ofNat

/-- Does `l` start with the pattern `p`? -/
def startsWithL : List Char → List Char → Bool
  | [], _ => true
  | _ :: _, [] => false
  | p :: ps, c :: cs => p = c && startsWithL ps cs

/-- Does the pattern occur somewhere in the list (Python `pat in hay`)? -/
def containsSubL (pat : List Char) : List Char → Bool
  | [] => startsWithL pat []
  | c :: rest => startsWithL pat (c :: rest) || containsSubL pat rest

/-- Python `pat in hay` on strings. -/
def strContains (hay pat : String) : Bool := containsSubL pat.data hay.data

/-- Python `s.startswith(p)`. -/
def pyStartsWith (s p : String) : Bool := startsWithL p.data s.data

/-! ### `extract_youtube_id` (scraper.py lines 64-72) -/

/-- The literal part of the pattern `embed/([^?]+)`. -/
def embedPat : List Char := "embed/".data

/-- Left-to-right scan for `re.search(r'embed/([^?]+)', url)`: at the
    first position where the literal `embed/` matches and is followed by
    at least one non-`?` character, capture the maximal non-`?` run. -/
def findEmbedCapture : List Char → Option (List Char)
  | [] => none
  | c :: rest =>
    if startsWithL embedPat (c :: rest) then
      let cap := ((c :: rest).drop embedPat.length).takeWhile (· != '?')
      if cap.isEmpty then findEmbedCapture rest else some cap
    else findEmbedCapture rest

/-- `extract_youtube_id`: `None` for a falsy url, else the first
    `embed/([^?]+)` capture. -/
def extract_youtube_id (url : String) : Option String :=
  if url = "" then none
  else (findEmbedCapture url.data).map (fun cs => ⟨cs⟩)

/-- The literal part of the pattern `youtube\.com/vi/([^/]+)/`. -/
def viPat : List Char := "youtube.com/vi/".data

/-- Left-to-right scan for `re.search(r'youtube\.com/vi/([^/]+)/', src)`:
    the literal prefix, then a nonempty maximal non-`/` run that must be
    followed by `/`. -/
def findThumbCapture : List Char → Option (List Char)
  | [] => none
  | c :: rest =>
    if startsWithL viPat (c :: rest) then
      let after := (c :: rest).drop viPat.length
      let cap := after.takeWhile (· != '/')
      match cap, after.drop cap.length with
      | _ :: _, '/' :: _ => some cap
      | _, _ => findThumbCapture rest
    else findThumbCapture rest

/-! ### Fragment model and `parse_item` (scraper.py lines 278-358) -/

/-- One `span` with class `ml-1` (an engagement-counter value).
    `prevPathD` is the `d` attribute of the `path` element found inside
    the span's previous sibling: `none` when there is no previous
    sibling or it contains no `path`; `some ""` models a `path` with no
    `d` attribute (`svg_path.get('d', '')`). -/
structure CounterSpan where
  text : String
  prevPathD : Option String
deriving DecidableEq

/-- One `div.sequence-card[data-index]` fragment, at the granularity the
    Python code queries it.  `iframeSrc`/`thumbSrc` are
    `iframe.get('src', '')` resp. the `img[alt='YouTube Thumbnail']`
    src when those elements exist. -/
structure Frag where
  dataIndex : String
  iframeSrc : Option String
  thumbSrc : Option String
  spans : List CounterSpan
  tagSpans : List String
  descText : Option String
deriving DecidableEq

/-- The record `parse_item` builds (its `video_info` dict).  Timestamps
    are abstracted to a per-cycle `Nat`. -/
structure VideoInfo where
  video_url : Option String
  video_id : Option String
  likes : Int
  comments : Int
  shares : Int
  saves : Int
  tags : List String
  description : String
  data_index : String
  scraped_at : Nat
deriving DecidableEq

/-- Vector-path fingerprint of the heart/likes icon. -/
def likesIcon : String := "M458.4 64.3"

/-- Vector-path fingerprint of the comment icon. -/
def commentsIcon : String := "M256 32C114.6"

/-- Vector-path fingerprint of the share icon. -/
def sharesIcon : String := "M237.66,106.35"

/-- Vector-path fingerprint of the save icon. -/
def savesIcon : String := "M18 2H6c-1.103"

/-- The four engagement counters, all initialised to 0. -/
structure Counters where
  likes : Int
  comments : Int
  shares : Int
  saves : Int
deriving DecidableEq

/-- One iteration of the counter-span loop (scraper.py lines 316-333):
    `int(span.text.strip())`, skip the span on `ValueError`; otherwise
    match the previous sibling's path `d` against the four fingerprints
    with `in`, first hit wins, no hit leaves the counters unchanged. -/
def applySpan (c : Counters) (sp : CounterSpan) : Counters :=
  match parsePyInt sp.text with
  | none => c
  | some v =>
    match sp.prevPathD with
    | none => c
    | some d =>
      if strContains d likesIcon then { c with likes := v }
      else if strContains d commentsIcon then { c with comments := v }
      else if strContains d sharesIcon then { c with shares := v }
      else if strContains d savesIcon then { c with saves := v }
      else c

/-- Python truthiness of an optional string (`None` and `''` falsy). -/
def isTruthyStr : Option String → Bool
  | none => false
  | some s => s != ""

/-- The URL built for ids recovered from a thumbnail (line 312). -/
def nocookieUrl (vid : String) : String :=
  "https://www.youtube-nocookie.com/embed/" ++ vid

/-- Media-identity resolution (scraper.py lines 297-312): prefer an
    iframe whose src mentions `youtube`; if that yields no truthy id,
    fall back to the thumbnail URL pattern.  Returns
    `(video_url, video_id)` as the dict holds them afterwards. -/
def resolveMedia (f : Frag) : Option String × Option String :=
  let p1 : Option String × Option String :=
    match f.iframeSrc with
    | some src =>
      if strContains src "youtube" then (some src, extract_youtube_id src)
      else (none, none)
    | none => (none, none)
  if isTruthyStr p1.2 then p1
  else
    match f.thumbSrc with
    | some src =>
      match findThumbCapture src.data with
      | some cap => (some (nocookieUrl ⟨cap⟩), some (⟨cap⟩ : String))
      | none => p1
    | none => p1

/-- The counter loop over all `span.ml-1` spans (lines 315-333). -/
def countersOf (f : Frag) : Counters := f.spans.foldl applySpan ⟨0, 0, 0, 0⟩

/-- Tag extraction (lines 336-337): strip each tag span's text and keep
    the ones starting with `#`. -/
def tagsOf (f : Frag) : List String :=
  (f.tagSpans.map pyStrip).filter (fun t => pyStartsWith t "#")

/-- Description extraction (lines 340-342): stripped text of the first
    `p.text-neutral-900`, or the initial `''`. -/
def descOf (f : Frag) : String :=
  match f.descText with
  | some d => pyStrip d
  | none => ""

/-- The fully populated `video_info` dict of `parse_item`. -/
def itemRecord (now : Nat) (f : Frag) : VideoInfo :=
  { video_url := (resolveMedia f).1, video_id := (resolveMedia f).2,
    likes := (countersOf f).likes, comments := (countersOf f).comments,
    shares := (countersOf f).shares, saves := (countersOf f).saves,
    tags := tagsOf f, description := descOf f, data_index := f.dataIndex,
    scraped_at := now }

/-- `parse_item` (scraper.py lines 278-358): build the record and return
    it only when `video_info['video_id']` is truthy, else the
    incomplete signal `none`.  The surrounding `try`/`except` has no
    other effect here: on this structured fragment model every step is
    total, and the only `ValueError` site (the counter loop) is already
    caught span-locally. -/
def parse_item (now : Nat) (f : Frag) : Option VideoInfo :=
  if isTruthyStr (resolveMedia f).2 then some (itemRecord now f) else none

/-! ### Paginator: `scrape_items` (scraper.py lines 360-495) -/

/-- `max_retries` (line 375). -/
def maxRetries : Nat := 10

/-- Mutable locals of the per-snapshot item loop (lines 390-409):
    `items`, `processed_indices`, `highest_index_seen`, `found_new`.
    `processed` is the set of already-captured logical indices, grown by
    insertion at the head. -/
structure ScanAcc where
  items : List VideoInfo
  processed : List Int
  highest : Int
  foundNew : Bool
deriving DecidableEq

/-- One iteration of the item loop (lines 392-409): parse the
    `data-index` attribute (`ValueError` skips the fragment), raise
    `highest_index_seen`, and for an unseen index run `parse_item`,
    storing the record and marking the index only on success. -/
def processItem (now : Nat) (a : ScanAcc) (f : Frag) : ScanAcc :=
  match parsePyInt f.dataIndex with
  | none => a
  | some idx =>
    let a1 := if a.highest < idx then { a with highest := idx } else a
    if idx ∈ a1.processed then a1
    else
      match parse_item now f with
      | some data =>
        { a1 with items := a1.items ++ [data], processed := idx :: a1.processed,
                  foundNew := true }
      | none => a1

/-- The whole item loop over one (sorted) snapshot. -/
def scanBatch (now : Nat) (l : List Frag) (a : ScanAcc) : ScanAcc :=
  l.foldl (processItem now) a

/-- The sort key `int(x.get('data-index', '0'))` (line 386), defaulted
    for the unreachable unparseable case. -/
def fragKey (f : Frag) : Int := (parsePyInt f.dataIndex).getD 0

/-- Comparison used to sort the visible fragments ascending by key. -/
def fragLe (a b : Frag) : Prop := fragKey a ≤ fragKey b

instance : DecidableRel fragLe :=
  fun a b => inferInstanceAs (Decidable (fragKey a ≤ fragKey b))

instance : IsTotal Frag fragLe := ⟨fun a b => le_total (fragKey a) (fragKey b)⟩

instance : IsTrans Frag fragLe := ⟨fun _ _ _ h1 h2 => le_trans h1 h2⟩

/-- `visible_items.sort(key=lambda x: int(x.get('data-index', '0')))`
    (line 386): Python first evaluates the key on every element —
    raising `ValueError` (modelled `none`) as soon as one `data-index`
    is not a parseable integer — and otherwise sorts stably ascending. -/
def sortVisible (l : List Frag) : Option (List Frag) :=
  if l.all (fun f => (parsePyInt f.dataIndex).isSome) then
    some (List.insertionSort fragLe l)
  else none

/-- Outcome of the container-scroll block (lines 417-481) for one cycle:
    a found container with the `scrollTop` read before and after the
    scroll command, a cycle where no selector matched, or an exception
    caught by the surrounding handler. -/
inductive ScrollOutcome where
  | ok (currentScroll newActualScroll : Int)
  | noContainer
  | scrollError
deriving DecidableEq

/-- What the browser yields during one loop iteration: the snapshot of
    visible `sequence-card[data-index]` fragments (`none` models
    `driver.page_source` raising, e.g. a lost session), the scroll
    outcome, and the cycle's clock reading for `scraped_at`. -/
structure CycleInput where
  snapshot : Option (List Frag)
  scroll : ScrollOutcome
  now : Nat
deriving DecidableEq

/-- Exceptions that escape `scrape_items` and abort the run. -/
inductive RunError where
  | collaboratorFailure
  | indexNotParseable
deriving DecidableEq

/-- Session state carried across cycles of `scrape_items`. -/
structure ScrapeState where
  items : List VideoInfo
  processed : List Int
  highest : Int
  noNew : Nat
deriving DecidableEq

/-- State on entering the loop: `items = []`, `processed_indices = set()`,
    `highest_index_seen = -1`, `no_new_items_count = 0`. -/
def initState : ScrapeState := ⟨[], [], -1, 0⟩

/-- One iteration of the `while no_new_items_count < max_retries` body:
    snapshot (a raised exception propagates), sort by `data-index` (an
    unparseable attribute raises `ValueError` from the key function at
    line 386, outside every handler), run the item loop, then the
    progress bookkeeping: `found_new` resets the streak, otherwise it
    increments; the scroll block adds one more increment when no
    container was found, when its code raised, or when the offset did
    not advance on a cycle without new items (line 472). -/
def scrapeCycle (st : ScrapeState) (inp : CycleInput) : Except RunError ScrapeState :=
  match inp.snapshot with
  | none => .error .collaboratorFailure
  | some frags =>
    match sortVisible frags with
    | none => .error .indexNotParseable
    | some sorted =>
      let a := scanBatch inp.now sorted ⟨st.items, st.processed, st.highest, false⟩
      let n1 := if a.foundNew then 0 else st.noNew + 1
      let n2 := match inp.scroll with
        | .ok cur newAct => if newAct ≤ cur && !a.foundNew then n1 + 1 else n1
        | .noContainer => n1 + 1
        | .scrollError => n1 + 1
      .ok ⟨a.items, a.processed, a.highest, n2⟩

/-- Result of the pagination loop.  `done st n`: the loop guard failed
    after `n` executed cycles and `st.items` is returned.  `aborted e n`:
    cycle `n` raised and the exception propagates to the caller — the
    accumulated items are not returned.  `fuelOut` is the model's
    escape for exhausted fuel and never occurs in the theorems below. -/
inductive RunResult where
  | done (st : ScrapeState) (cycles : Nat)
  | aborted (e : RunError) (cycles : Nat)
  | fuelOut (st : ScrapeState)
deriving DecidableEq

/-- The `while no_new_items_count < max_retries` loop, fuelled. -/
def runLoop (oracle : Nat → CycleInput) : Nat → Nat → ScrapeState → RunResult
  | 0, _, st => .fuelOut st
  | fuel + 1, k, st =>
    if maxRetries ≤ st.noNew then .done st k
    else
      match scrapeCycle st (oracle k) with
      | .error e => .aborted e k
      | .ok st1 => runLoop oracle fuel (k + 1) st1

/-- `scrape_items`: when the initial `get_page` fails the empty item
    list is returned at once (lines 369-371); otherwise the loop runs
    from the empty session state. -/
def scrape_items (pageOk : Bool) (oracle : Nat → CycleInput) (fuel : Nat) : RunResult :=
  if pageOk then runLoop oracle fuel 0 initState else .done initState 0

/-- The logical index stored in a record: `parse_item` keeps the raw
    `data-index` string in the `data_index` field. -/
def recKey (r : VideoInfo) : Option Int := parsePyInt r.data_index

/-! ### Lemmas about the extractor -/

theorem isTruthyStr_eq_true {v : Option String} :
    isTruthyStr v = true ↔ ∃ s, v = some s ∧ s ≠ "" := by
  cases v <;> simp [isTruthyStr]

theorem parse_item_eq_some {now : Nat} {f : Frag} {r : VideoInfo}
    (h : parse_item now f = some r) :
    r.video_url = (resolveMedia f).1 ∧ r.video_id = (resolveMedia f).2 ∧
    r.data_index = f.dataIndex ∧
    r.likes = (countersOf f).likes ∧ r.comments = (countersOf f).comments ∧
    r.shares = (countersOf f).shares ∧ r.saves = (countersOf f).saves ∧
    isTruthyStr (resolveMedia f).2 = true := by
  unfold parse_item at h
  split at h
  · cases h
    exact ⟨rfl, rfl, rfl, rfl, rfl, rfl, rfl, by assumption⟩
  · cases h

theorem parse_item_eq_none_iff {now : Nat} {f : Frag} :
    parse_item now f = none ↔ isTruthyStr (resolveMedia f).2 = false := by
  unfold parse_item
  split <;> simp_all

theorem parse_item_isSome {now : Nat} {f : Frag} :
    (parse_item now f).isSome = isTruthyStr (resolveMedia f).2 := by
  unfold parse_item
  split <;> simp_all

theorem resolveMedia_cases {f : Frag}
    (h : isTruthyStr (resolveMedia f).2 = true) :
    (∃ src, f.iframeSrc = some src ∧ strContains src "youtube" = true ∧
       resolveMedia f = (some src, extract_youtube_id src)) ∨
    (∃ src cap, f.thumbSrc = some src ∧ findThumbCapture src.data = some cap ∧
       resolveMedia f = (some (nocookieUrl ⟨cap⟩), some (⟨cap⟩ : String))) := by
  rcases hif : f.iframeSrc with _ | src
  · rcases hth : f.thumbSrc with _ | tsrc
    · simp [resolveMedia, hif, hth, isTruthyStr] at h
    · rcases hcap : findThumbCapture tsrc.data with _ | cap
      · simp [resolveMedia, hif, hth, hcap, isTruthyStr] at h
      · exact Or.inr ⟨tsrc, cap, rfl, hcap, by
          simp [resolveMedia, hif, hth, hcap, isTruthyStr]⟩
  · by_cases hy : strContains src "youtube" = true
    · by_cases ht : isTruthyStr (extract_youtube_id src) = true
      · exact Or.inl ⟨src, rfl, hy, by simp [resolveMedia, hif, hy, ht]⟩
      · have ht2 : isTruthyStr (extract_youtube_id src) = false := by simpa using ht
        rcases hth : f.thumbSrc with _ | tsrc
        · simp [resolveMedia, hif, hy, ht2, hth] at h
        · rcases hcap : findThumbCapture tsrc.data with _ | cap
          · simp [resolveMedia, hif, hy, ht2, hth, hcap] at h
          · exact Or.inr ⟨tsrc, cap, rfl, hcap, by
              simp [resolveMedia, hif, hy, ht2, hth, hcap]⟩
    · have hy2 : strContains src "youtube" = false := by simpa using hy
      rcases hth : f.thumbSrc with _ | tsrc
      · simp [resolveMedia, hif, hy2, hth, isTruthyStr] at h
      · rcases hcap : findThumbCapture tsrc.data with _ | cap
        · simp [resolveMedia, hif, hy2, hth, hcap, isTruthyStr] at h
        · exact Or.inr ⟨tsrc, cap, rfl, hcap, by
            simp [resolveMedia, hif, hy2, hth, hcap, isTruthyStr]⟩

/-- A span whose icon matches none of the four fingerprints changes no
    counter at all. -/
theorem applySpan_unmatched {c : Counters} {sp : CounterSpan}
    (h : ∀ d, sp.prevPathD = some d →
      strContains d likesIcon = false ∧ strContains d commentsIcon = false ∧
      strContains d sharesIcon = false ∧ strContains d savesIcon = false) :
    applySpan c sp = c := by
  unfold applySpan
  rcases hv : parsePyInt sp.text with _ | v
  · rfl
  · rcases hd : sp.prevPathD with _ | d
    · rfl
    · obtain ⟨h1, h2, h3, h4⟩ := h d hd
      simp [h1, h2, h3, h4]

/-- If no span's icon carries the likes fingerprint, the likes counter
    keeps its initial value through the whole counter loop. -/
theorem foldl_applySpan_likes {l : List CounterSpan} {c : Counters}
    (h : ∀ sp ∈ l, ∀ d, sp.prevPathD = some d → strContains d likesIcon = false) :
    (l.foldl applySpan c).likes = c.likes := by
  induction l generalizing c with
  | nil => rfl
  | cons sp rest ih =>
    have hsp := h sp (List.mem_cons_self sp rest)
    have hrest : ∀ sp2 ∈ rest, ∀ d, sp2.prevPathD = some d →
        strContains d likesIcon = false :=
      fun sp2 hm => h sp2 (List.mem_cons_of_mem _ hm)
    rw [List.foldl_cons, ih hrest]
    unfold applySpan
    rcases hv : parsePyInt sp.text with _ | v
    · rfl
    · rcases hd : sp.prevPathD with _ | d
      · rfl
      · have := hsp d hd
        simp only [this, Bool.false_eq_true, if_false]
        split <;> try rfl
        split <;> try rfl
        split <;> rfl

/-- If no span's icon carries the comments fingerprint, the comments
    counter keeps its initial value through the whole counter loop. -/
theorem foldl_applySpan_comments {l : List CounterSpan} {c : Counters}
    (h : ∀ sp ∈ l, ∀ d, sp.prevPathD = some d → strContains d commentsIcon = false) :
    (l.foldl applySpan c).comments = c.comments := by
  induction l generalizing c with
  | nil => rfl
  | cons sp rest ih =>
    have hsp := h sp (List.mem_cons_self sp rest)
    rw [List.foldl_cons, ih (fun sp2 hm => h sp2 (List.mem_cons_of_mem _ hm))]
    unfold applySpan
    rcases hv : parsePyInt sp.text with _ | v
    · rfl
    · rcases hd : sp.prevPathD with _ | d
      · rfl
      · have hc := hsp d hd
        dsimp only
        split_ifs <;> simp_all

/-- If no span's icon carries the share fingerprint, the shares counter
    keeps its initial value through the whole counter loop. -/
theorem foldl_applySpan_shares {l : List CounterSpan} {c : Counters}
    (h : ∀ sp ∈ l, ∀ d, sp.prevPathD = some d → strContains d sharesIcon = false) :
    (l.foldl applySpan c).shares = c.shares := by
  induction l generalizing c with
  | nil => rfl
  | cons sp rest ih =>
    have hsp := h sp (List.mem_cons_self sp rest)
    rw [List.foldl_cons, ih (fun sp2 hm => h sp2 (List.mem_cons_of_mem _ hm))]
    unfold applySpan
    rcases hv : parsePyInt sp.text with _ | v
    · rfl
    · rcases hd : sp.prevPathD with _ | d
      · rfl
      · have hc := hsp d hd
        dsimp only
        split_ifs <;> simp_all

/-- If no span's icon carries the save fingerprint, the saves counter
    keeps its initial value through the whole counter loop. -/
theorem foldl_applySpan_saves {l : List CounterSpan} {c : Counters}
    (h : ∀ sp ∈ l, ∀ d, sp.prevPathD = some d → strContains d savesIcon = false) :
    (l.foldl applySpan c).saves = c.saves := by
  induction l generalizing c with
  | nil => rfl
  | cons sp rest ih =>
    have hsp := h sp (List.mem_cons_self sp rest)
    rw [List.foldl_cons, ih (fun sp2 hm => h sp2 (List.mem_cons_of_mem _ hm))]
    unfold applySpan
    rcases hv : parsePyInt sp.text with _ | v
    · rfl
    · rcases hd : sp.prevPathD with _ | d
      · rfl
      · have hc := hsp d hd
        dsimp only
        split_ifs <;> simp_all

/-! ### Lemmas about the scan loop -/

/-- Exhaustive case analysis of one item-loop iteration. -/
theorem processItem_shape (now : Nat) (a : ScanAcc) (f : Frag) :
    (parsePyInt f.dataIndex = none ∧ processItem now a f = a) ∨
    (∃ idx, parsePyInt f.dataIndex = some idx ∧ idx ∈ a.processed ∧
       processItem now a f = { a with highest := max a.highest idx }) ∨
    (∃ idx, parsePyInt f.dataIndex = some idx ∧ idx ∉ a.processed ∧
       parse_item now f = none ∧
       processItem now a f = { a with highest := max a.highest idx }) ∨
    (∃ idx data, parsePyInt f.dataIndex = some idx ∧ idx ∉ a.processed ∧
       parse_item now f = some data ∧
       processItem now a f =
         ⟨a.items ++ [data], idx :: a.processed, max a.highest idx, true⟩) := by
  unfold processItem
  rcases hp : parsePyInt f.dataIndex with _ | idx
  · exact Or.inl ⟨rfl, rfl⟩
  · have hmax : (if a.highest < idx then ({ a with highest := idx } : ScanAcc) else a) =
        { a with highest := max a.highest idx } := by
      by_cases hh : a.highest < idx
      · simp [hh, max_eq_right (le_of_lt hh)]
      · simp [hh, max_eq_left (not_lt.mp hh)]
    dsimp only
    rw [hmax]
    by_cases hm : idx ∈ a.processed
    · refine Or.inr (Or.inl ⟨idx, rfl, hm, ?_⟩)
      simp [hm]
    · rcases hd : parse_item now f with _ | data
      · refine Or.inr (Or.inr (Or.inl ⟨idx, rfl, hm, rfl, ?_⟩))
        simp [hm]
      · refine Or.inr (Or.inr (Or.inr ⟨idx, data, rfl, hm, rfl, ?_⟩))
        simp [hm]

/-- Each iteration only appends items, only inserts processed indices
    and only raises the highest index. -/
theorem processItem_grow (now : Nat) (a : ScanAcc) (f : Frag) :
    (∃ t, (processItem now a f).items = a.items ++ t) ∧
    a.processed ⊆ (processItem now a f).processed ∧
    a.highest ≤ (processItem now a f).highest := by
  rcases processItem_shape now a f with ⟨_, he⟩ | ⟨idx, _, _, he⟩ |
      ⟨idx, _, _, _, he⟩ | ⟨idx, data, _, _, _, he⟩ <;> rw [he]
  · exact ⟨⟨[], by simp⟩, fun x hx => hx, le_refl _⟩
  · exact ⟨⟨[], by simp⟩, fun x hx => hx, le_max_left _ _⟩
  · exact ⟨⟨[], by simp⟩, fun x hx => hx, le_max_left _ _⟩
  · exact ⟨⟨[data], rfl⟩, fun x hx => List.mem_cons_of_mem _ hx, le_max_left _ _⟩

/-- `scanBatch` on a cons. -/
theorem scanBatch_cons (now : Nat) (f : Frag) (l : List Frag) (a : ScanAcc) :
    scanBatch now (f :: l) a = scanBatch now l (processItem now a f) := rfl

/-- Whole-batch version of `processItem_grow`. -/
theorem scanBatch_grow (now : Nat) (l : List Frag) : ∀ a : ScanAcc,
    (∃ t, (scanBatch now l a).items = a.items ++ t) ∧
    a.processed ⊆ (scanBatch now l a).processed ∧
    a.highest ≤ (scanBatch now l a).highest := by
  induction l with
  | nil => exact fun a => ⟨⟨[], by simp [scanBatch]⟩, fun x hx => hx, le_refl _⟩
  | cons f rest ih =>
    intro a
    obtain ⟨⟨t1, e1⟩, hs1, hh1⟩ := processItem_grow now a f
    obtain ⟨⟨t2, e2⟩, hs2, hh2⟩ := ih (processItem now a f)
    rw [scanBatch_cons]
    exact ⟨⟨t1 ++ t2, by rw [e2, e1, List.append_assoc]⟩,
      fun x hx => hs2 (hs1 hx), le_trans hh1 hh2⟩

/-- After one pass, a fragment of the batch can never act again: its
    index is at most the recorded highest, and is either processed or
    belongs to a fragment whose extraction fails (a fact independent of
    the cycle's clock). -/
def scannedOut (a : ScanAcc) (f : Frag) : Prop :=
  ∀ idx, parsePyInt f.dataIndex = some idx →
    idx ≤ a.highest ∧ (idx ∈ a.processed ∨ isTruthyStr (resolveMedia f).2 = false)

theorem scannedOut_mono {a b : ScanAcc} {f : Frag} (hp : a.processed ⊆ b.processed)
    (hh : a.highest ≤ b.highest) (h : scannedOut a f) : scannedOut b f :=
  fun idx hidx =>
    ⟨le_trans (h idx hidx).1 hh,
     (h idx hidx).2.elim (fun m => Or.inl (hp m)) Or.inr⟩

theorem processItem_scannedOut (now : Nat) (a : ScanAcc) (f : Frag) :
    scannedOut (processItem now a f) f := by
  rcases processItem_shape now a f with ⟨hp, he⟩ | ⟨idx, hp, hm, he⟩ |
      ⟨idx, hp, hm, hd, he⟩ | ⟨idx, data, hp, hm, hd, he⟩ <;> rw [he] <;>
    intro j hj
  · rw [hp] at hj; cases hj
  · rw [hp] at hj; cases hj
    exact ⟨le_max_right _ _, Or.inl hm⟩
  · rw [hp] at hj; cases hj
    exact ⟨le_max_right _ _, Or.inr (parse_item_eq_none_iff.mp hd)⟩
  · rw [hp] at hj; cases hj
    exact ⟨le_max_right _ _, Or.inl (List.mem_cons_self _ _)⟩

theorem scanBatch_scannedOut (now : Nat) : ∀ (l : List Frag) (a : ScanAcc),
    ∀ f ∈ l, scannedOut (scanBatch now l a) f := by
  intro l
  induction l with
  | nil => intro a f hf; cases hf
  | cons g rest ih =>
    intro a f hf
    rcases List.mem_cons.mp hf with rfl | hf
    · obtain ⟨⟨t, _⟩, hs, hh⟩ := scanBatch_grow now rest (processItem now a f)
      exact scannedOut_mono hs hh (processItem_scannedOut now a f)
    · exact ih (processItem now a g) f hf

/-- A fragment that is already scanned out is a complete no-op,
    whatever the current clock value is. -/
theorem processItem_noop {now : Nat} {a : ScanAcc} {f : Frag}
    (h : scannedOut a f) : processItem now a f = a := by
  rcases processItem_shape now a f with ⟨_, he⟩ | ⟨idx, hp, hm, he⟩ |
      ⟨idx, hp, hm, hd, he⟩ | ⟨idx, data, hp, hm, hd, he⟩
  · exact he
  · rw [he, max_eq_left (h idx hp).1]
  · rw [he, max_eq_left (h idx hp).1]
  · rcases (h idx hp).2 with hmem | hfail
    · exact absurd hmem hm
    · rw [parse_item_eq_none_iff.mpr hfail] at hd; cases hd

/-- Rescanning any list of scanned-out fragments changes nothing. -/
theorem scanBatch_noop (now : Nat) : ∀ (l : List Frag) (a : ScanAcc),
    (∀ f ∈ l, scannedOut a f) → scanBatch now l a = a := by
  intro l
  induction l with
  | nil => intro a _; rfl
  | cons f rest ih =>
    intro a h
    rw [scanBatch_cons, processItem_noop (h f (List.mem_cons_self f rest))]
    exact ih a (fun g hg => h g (List.mem_cons_of_mem _ hg))

/-! ### Invariants of the accumulated scan state -/

/-- Invariant of the accumulated state: processed indices never exceed
    the highest index seen, every stored record's `data-index` parses to
    a processed index, stored indices are pairwise distinct, and every
    stored record carries a truthy video id. -/
def accInv (a : ScanAcc) : Prop :=
  (∀ i ∈ a.processed, i ≤ a.highest) ∧
  (∀ r ∈ a.items, ∃ i, recKey r = some i ∧ i ∈ a.processed) ∧
  (a.items.map recKey).Nodup ∧
  (∀ r ∈ a.items, ∃ s, r.video_id = some s ∧ s ≠ "")

/-- A record produced by `parse_item` keys to the fragment's index. -/
theorem parse_item_recKey {now : Nat} {f : Frag} {data : VideoInfo} {idx : Int}
    (hd : parse_item now f = some data) (hp : parsePyInt f.dataIndex = some idx) :
    recKey data = some idx := by
  unfold recKey
  rw [(parse_item_eq_some hd).2.2.1, hp]

/-- A record produced by `parse_item` has a truthy video id. -/
theorem parse_item_truthy_id {now : Nat} {f : Frag} {data : VideoInfo}
    (hd : parse_item now f = some data) :
    ∃ s, data.video_id = some s ∧ s ≠ "" := by
  obtain ⟨_, hid, _, _, _, _, _, ht⟩ := parse_item_eq_some hd
  obtain ⟨s, hs, hne⟩ := isTruthyStr_eq_true.mp ht
  exact ⟨s, by rw [hid, hs], hne⟩

theorem processItem_inv {now : Nat} {a : ScanAcc} {f : Frag}
    (h : accInv a) : accInv (processItem now a f) := by
  obtain ⟨h1, h2, h3, h4⟩ := h
  rcases processItem_shape now a f with ⟨_, he⟩ | ⟨idx, hp, hm, he⟩ |
      ⟨idx, hp, hm, hd, he⟩ | ⟨idx, data, hp, hm, hd, he⟩ <;> rw [he]
  · exact ⟨h1, h2, h3, h4⟩
  · exact ⟨fun i hi => le_trans (h1 i hi) (le_max_left _ _), h2, h3, h4⟩
  · exact ⟨fun i hi => le_trans (h1 i hi) (le_max_left _ _), h2, h3, h4⟩
  · have hkey : recKey data = some idx := parse_item_recKey hd hp
    refine ⟨?_, ?_, ?_, ?_⟩
    · intro i hi
      rcases List.mem_cons.mp hi with rfl | hi
      · exact le_max_right _ _
      · exact le_trans (h1 i hi) (le_max_left _ _)
    · intro r hr
      rcases List.mem_append.mp hr with hr | hr
      · obtain ⟨i, hk, hip⟩ := h2 r hr
        exact ⟨i, hk, List.mem_cons_of_mem _ hip⟩
      · have hrd : r = data := by simpa using hr
        subst hrd
        exact ⟨idx, hkey, List.mem_cons_self _ _⟩
    · rw [List.map_append]
      refine List.Nodup.append h3 (by simp) ?_
      intro x hx hx2
      simp only [List.map_cons, List.map_nil, List.mem_singleton] at hx2
      subst hx2
      obtain ⟨r, hr, hkr⟩ := List.mem_map.mp hx
      obtain ⟨i, hk, hip⟩ := h2 r hr
      rw [hk] at hkr
      rw [hkey] at hkr
      cases hkr
      exact hm hip
    · intro r hr
      rcases List.mem_append.mp hr with hr | hr
      · exact h4 r hr
      · have hrd : r = data := by simpa using hr
        subst hrd
        exact parse_item_truthy_id hd

theorem scanBatch_inv (now : Nat) : ∀ (l : List Frag) (a : ScanAcc),
    accInv a → accInv (scanBatch now l a) := by
  intro l
  induction l with
  | nil => exact fun a h => h
  | cons f rest ih =>
    intro a h
    rw [scanBatch_cons]
    exact ih _ (processItem_inv h)

/-- When every fragment of the batch is either already processed or
    unextractable, the batch stores nothing, marks nothing and keeps
    `found_new` as it was. -/
theorem scanBatch_stable (now : Nat) : ∀ (l : List Frag) (a : ScanAcc),
    (∀ f ∈ l, ∀ idx, parsePyInt f.dataIndex = some idx →
        idx ∈ a.processed ∨ isTruthyStr (resolveMedia f).2 = false) →
    (scanBatch now l a).items = a.items ∧
    (scanBatch now l a).processed = a.processed ∧
    (scanBatch now l a).foundNew = a.foundNew := by
  intro l
  induction l with
  | nil => exact fun a _ => ⟨rfl, rfl, rfl⟩
  | cons f rest ih =>
    intro a h
    have hf := h f (List.mem_cons_self f rest)
    have hstep : (processItem now a f).items = a.items ∧
        (processItem now a f).processed = a.processed ∧
        (processItem now a f).foundNew = a.foundNew := by
      rcases processItem_shape now a f with ⟨_, he⟩ | ⟨idx, hp, hm, he⟩ |
          ⟨idx, hp, hm, hd, he⟩ | ⟨idx, data, hp, hm, hd, he⟩ <;> rw [he]
      · exact ⟨rfl, rfl, rfl⟩
      · exact ⟨rfl, rfl, rfl⟩
      · exact ⟨rfl, rfl, rfl⟩
      · rcases hf idx hp with hmem | hfail
        · exact absurd hmem hm
        · rw [parse_item_eq_none_iff.mpr hfail] at hd; cases hd
    rw [scanBatch_cons]
    have hrest := ih (processItem now a f) (by
      intro g hg idx hidx
      rw [hstep.2.1]
      exact h g (List.mem_cons_of_mem _ hg) idx hidx)
    exact ⟨hrest.1.trans hstep.1, hrest.2.1.trans hstep.2.1,
      hrest.2.2.trans hstep.2.2⟩

/-! ### The newly stored records of one batch -/

/-- Every record a batch adds beyond the pre-existing ones comes from a
    fragment of the batch whose index was not yet processed. -/
theorem scanBatch_new_keys (now : Nat) : ∀ (l : List Frag) (a : ScanAcc)
    (r : VideoInfo), r ∈ (scanBatch now l a).items.drop a.items.length →
    ∃ f ∈ l, ∃ j, parsePyInt f.dataIndex = some j ∧ recKey r = some j ∧
      j ∉ a.processed := by
  intro l
  induction l with
  | nil =>
    intro a r hr
    simp [scanBatch] at hr
  | cons f rest ih =>
    intro a r hr
    rw [scanBatch_cons] at hr
    rcases processItem_shape now a f with ⟨_, he⟩ | ⟨idx, hp, hm, he⟩ |
        ⟨idx, hp, hm, hd, he⟩ | ⟨idx, data, hp, hm, hd, he⟩
    · rw [he] at hr
      obtain ⟨g, hg, j, h1, h2, h3⟩ := ih a r hr
      exact ⟨g, List.mem_cons_of_mem _ hg, j, h1, h2, h3⟩
    · rw [he] at hr
      obtain ⟨g, hg, j, h1, h2, h3⟩ :=
        ih ({ a with highest := max a.highest idx } : ScanAcc) r hr
      exact ⟨g, List.mem_cons_of_mem _ hg, j, h1, h2, h3⟩
    · rw [he] at hr
      obtain ⟨g, hg, j, h1, h2, h3⟩ :=
        ih ({ a with highest := max a.highest idx } : ScanAcc) r hr
      exact ⟨g, List.mem_cons_of_mem _ hg, j, h1, h2, h3⟩
    · rw [he] at hr
      obtain ⟨t2, ht2⟩ := (scanBatch_grow now rest _).1
      rw [ht2] at hr
      have hsplit : ((⟨a.items ++ [data], idx :: a.processed, max a.highest idx,
          true⟩ : ScanAcc).items ++ t2).drop a.items.length = data :: t2 := by
        show ((a.items ++ [data]) ++ t2).drop a.items.length = data :: t2
        rw [List.append_assoc, List.drop_left]
        rfl
      rw [hsplit] at hr
      rcases List.mem_cons.mp hr with rfl | hr
      · exact ⟨f, List.mem_cons_self _ _, idx, hp, parse_item_recKey hd hp, hm⟩
      · have hr2 : r ∈ (scanBatch now rest (⟨a.items ++ [data], idx :: a.processed,
            max a.highest idx, true⟩ : ScanAcc)).items.drop
            (a.items ++ [data]).length := by
          rw [ht2]
          show r ∈ ((a.items ++ [data]) ++ t2).drop (a.items ++ [data]).length
          rw [List.drop_left]
          exact hr
        obtain ⟨g, hg, j, h1, h2, h3⟩ := ih (⟨a.items ++ [data], idx :: a.processed,
          max a.highest idx, true⟩ : ScanAcc) r hr2
        refine ⟨g, List.mem_cons_of_mem _ hg, j, h1, h2, fun hj => h3 ?_⟩
        exact List.mem_cons_of_mem _ hj

/-- The records a batch adds are strictly ascending by logical index
    when the batch is sorted ascending (as the sorted snapshot is). -/
theorem scanBatch_new_ascending (now : Nat) : ∀ (l : List Frag) (a : ScanAcc),
    List.Pairwise fragLe l →
    List.Pairwise (fun r r2 => ∃ i j, recKey r = some i ∧ recKey r2 = some j ∧ i < j)
      ((scanBatch now l a).items.drop a.items.length) := by
  intro l
  induction l with
  | nil =>
    intro a _
    simp [scanBatch]
  | cons f rest ih =>
    intro a hsort
    obtain ⟨hf, hrest⟩ := List.pairwise_cons.mp hsort
    rw [scanBatch_cons]
    rcases processItem_shape now a f with ⟨_, he⟩ | ⟨idx, hp, hm, he⟩ |
        ⟨idx, hp, hm, hd, he⟩ | ⟨idx, data, hp, hm, hd, he⟩
    · rw [he]; exact ih a hrest
    · rw [he]; exact ih ({ a with highest := max a.highest idx } : ScanAcc) hrest
    · rw [he]; exact ih ({ a with highest := max a.highest idx } : ScanAcc) hrest
    · rw [he]
      obtain ⟨t2, ht2⟩ := (scanBatch_grow now rest _).1
      have hsplit : (scanBatch now rest (⟨a.items ++ [data], idx :: a.processed,
          max a.highest idx, true⟩ : ScanAcc)).items.drop a.items.length =
          data :: t2 := by
        rw [ht2]
        show ((a.items ++ [data]) ++ t2).drop a.items.length = data :: t2
        rw [List.append_assoc, List.drop_left]
        rfl
      rw [hsplit]
      refine List.pairwise_cons.mpr ⟨?_, ?_⟩
      · intro r hr
        have hr2 : r ∈ (scanBatch now rest (⟨a.items ++ [data], idx :: a.processed,
            max a.highest idx, true⟩ : ScanAcc)).items.drop
            (a.items ++ [data]).length := by
          rw [ht2]
          show r ∈ ((a.items ++ [data]) ++ t2).drop (a.items ++ [data]).length
          rw [List.drop_left]
          exact hr
        obtain ⟨g, hg, j, h1, h2, h3⟩ := scanBatch_new_keys now rest
          (⟨a.items ++ [data], idx :: a.processed, max a.highest idx, true⟩ : ScanAcc) r hr2
        have hne : j ≠ idx := fun hj => h3 (hj ▸ List.mem_cons_self _ _)
        have hle : idx ≤ j := by
          have := hf g hg
          unfold fragLe fragKey at this
          rw [hp, h1] at this
          exact this
        exact ⟨idx, j, parse_item_recKey hd hp, h2, lt_of_le_of_ne hle (Ne.symm hne)⟩
      · have := ih (⟨a.items ++ [data], idx :: a.processed, max a.highest idx,
            true⟩ : ScanAcc) hrest
        rw [ht2] at this
        have heq : ((⟨a.items ++ [data], idx :: a.processed, max a.highest idx,
            true⟩ : ScanAcc).items ++ t2).drop (a.items ++ [data]).length = t2 := by
          show ((a.items ++ [data]) ++ t2).drop (a.items ++ [data]).length = t2
          rw [List.drop_left]
        rw [heq] at this
        exact this

/-! ### Cycle-level lemmas -/

/-- The scan accumulator a cycle starts from (`found_new = False`). -/
def scanStart (st : ScrapeState) : ScanAcc := ⟨st.items, st.processed, st.highest, false⟩

/-- The session-state invariant of the spec, phrased on the fields the
    loop carries across cycles. -/
def sessionInv (st : ScrapeState) : Prop := accInv (scanStart st)

theorem sessionInv_init : sessionInv initState := by
  refine ⟨?_, ?_, ?_, ?_⟩ <;> simp [initState, scanStart]

theorem accInv_fields {a b : ScanAcc} (hi : b.items = a.items)
    (hp : b.processed = a.processed) (hh : b.highest = a.highest)
    (h : accInv a) : accInv b := by
  unfold accInv at h ⊢
  rw [hi, hp, hh]
  exact h

/-- Destructor for a successful cycle: the fields of the next state are
    the scan result, and a cycle that stored nothing new strictly
    increments the no-progress streak. -/
theorem scrapeCycle_ok {st st1 : ScrapeState} {inp : CycleInput}
    (h : scrapeCycle st inp = .ok st1) :
    ∃ frags sorted, inp.snapshot = some frags ∧ sortVisible frags = some sorted ∧
      st1.items = (scanBatch inp.now sorted (scanStart st)).items ∧
      st1.processed = (scanBatch inp.now sorted (scanStart st)).processed ∧
      st1.highest = (scanBatch inp.now sorted (scanStart st)).highest ∧
      ((scanBatch inp.now sorted (scanStart st)).foundNew = false →
        st.noNew + 1 ≤ st1.noNew) := by
  unfold scrapeCycle at h
  rcases hs : inp.snapshot with _ | frags
  · rw [hs] at h; cases h
  · rw [hs] at h
    dsimp only at h
    rcases hv : sortVisible frags with _ | sorted
    · rw [hv] at h; cases h
    · rw [hv] at h
      dsimp only at h
      cases h
      refine ⟨frags, sorted, rfl, hv, rfl, rfl, rfl, ?_⟩
      intro hfn
      show st.noNew + 1 ≤
        (match inp.scroll with
          | .ok cur newAct =>
            if newAct ≤ cur && !(scanBatch inp.now sorted (scanStart st)).foundNew
            then (if (scanBatch inp.now sorted (scanStart st)).foundNew then 0
                  else st.noNew + 1) + 1
            else (if (scanBatch inp.now sorted (scanStart st)).foundNew then 0
                  else st.noNew + 1)
          | .noContainer => (if (scanBatch inp.now sorted (scanStart st)).foundNew
              then 0 else st.noNew + 1) + 1
          | .scrollError => (if (scanBatch inp.now sorted (scanStart st)).foundNew
              then 0 else st.noNew + 1) + 1)
      rw [hfn]
      rcases inp.scroll with ⟨cur, newAct⟩ | _ | _
      · simp only [Bool.false_eq_true, if_false]
        split <;> omega
      · simp only [Bool.false_eq_true, if_false]; omega
      · simp only [Bool.false_eq_true, if_false]; omega

theorem scrapeCycle_inv {st st1 : ScrapeState} {inp : CycleInput}
    (h : sessionInv st) (hc : scrapeCycle st inp = .ok st1) : sessionInv st1 := by
  obtain ⟨frags, sorted, _, _, hi, hp, hh, _⟩ := scrapeCycle_ok hc
  exact accInv_fields hi hp hh (scanBatch_inv inp.now sorted (scanStart st) h)

theorem scrapeCycle_mono {st st1 : ScrapeState} {inp : CycleInput}
    (hc : scrapeCycle st inp = .ok st1) :
    (∃ t, st1.items = st.items ++ t) ∧ st.processed ⊆ st1.processed ∧
    st.highest ≤ st1.highest := by
  obtain ⟨frags, sorted, _, _, hi, hp, hh, _⟩ := scrapeCycle_ok hc
  obtain ⟨⟨t, ht⟩, hsub, hle⟩ := scanBatch_grow inp.now sorted (scanStart st)
  exact ⟨⟨t, by rw [hi]; exact ht⟩, fun x hx => by rw [hp]; exact hsub hx,
    by rw [hh]; exact hle⟩

/-! ### Loop-level lemmas -/

theorem runLoop_succ (oracle : Nat → CycleInput) (fuel k : Nat) (st : ScrapeState) :
    runLoop oracle (fuel + 1) k st =
      if maxRetries ≤ st.noNew then .done st k
      else
        match scrapeCycle st (oracle k) with
        | .error e => .aborted e k
        | .ok st1 => runLoop oracle fuel (k + 1) st1 := rfl

/-- Once the streak has reached the threshold, the loop guard fails at
    once: no further condition is consulted. -/
theorem runLoop_exit (oracle : Nat → CycleInput) (fuel k : Nat) (st : ScrapeState)
    (h : maxRetries ≤ st.noNew) : runLoop oracle (fuel + 1) k st = .done st k := by
  rw [runLoop_succ, if_pos h]

/-- Any property preserved by successful cycles holds of the final state
    of a normally terminating loop. -/
theorem runLoop_pres (P : ScrapeState → Prop)
    (hstep : ∀ st inp st1, P st → scrapeCycle st inp = .ok st1 → P st1)
    (oracle : Nat → CycleInput) : ∀ (fuel k : Nat) (st : ScrapeState), P st →
    ∀ st1 n, runLoop oracle fuel k st = .done st1 n → P st1 := by
  intro fuel
  induction fuel with
  | zero => intro k st _ st1 n h; cases h
  | succ fuel ih =>
    intro k st hP st1 n h
    rw [runLoop_succ] at h
    split at h
    · cases h; exact hP
    · rcases hc : scrapeCycle st (oracle k) with e | st2
      · rw [hc] at h; cases h
      · rw [hc] at h
        exact ih (k + 1) st2 (hstep st (oracle k) st2 hP hc) st1 n h

/-- A loop that returns normally does so with the streak at the
    threshold. -/
theorem runLoop_done_noNew (oracle : Nat → CycleInput) :
    ∀ (fuel k : Nat) (st st1 : ScrapeState) (n : Nat),
    runLoop oracle fuel k st = .done st1 n → maxRetries ≤ st1.noNew := by
  intro fuel
  induction fuel with
  | zero => intro k st st1 n h; cases h
  | succ fuel ih =>
    intro k st st1 n h
    rw [runLoop_succ] at h
    split at h
    · cases h; assumption
    · rcases hc : scrapeCycle st (oracle k) with e | st2
      · rw [hc] at h; cases h
      · rw [hc] at h
        exact ih (k + 1) st2 st1 n h

/-- A raised snapshot call mid-loop aborts: the exception propagates
    and no item list is returned. -/
theorem runLoop_abort (oracle : Nat → CycleInput) (fuel k : Nat) (st : ScrapeState)
    (h : st.noNew < maxRetries) (hs : (oracle k).snapshot = none) :
    runLoop oracle (fuel + 1) k st = .aborted .collaboratorFailure k := by
  rw [runLoop_succ, if_neg (not_le.mpr h)]
  have hc : scrapeCycle st (oracle k) = .error .collaboratorFailure := by
    unfold scrapeCycle; rw [hs]
  rw [hc]

/-! ### The synthetic collaborator of the termination property -/

/-- A cycle input on which no exception is raised: the snapshot call
    succeeds and every visible `data-index` parses. -/
def goodInput (inp : CycleInput) : Prop :=
  ∃ frags, inp.snapshot = some frags ∧
    ∀ f ∈ frags, (parsePyInt f.dataIndex).isSome = true

/-- A cycle input producing no logical index that is both new relative
    to the processed set `S` and extractable. -/
def noNewInput (S : List Int) (inp : CycleInput) : Prop :=
  ∀ frags, inp.snapshot = some frags → ∀ f ∈ frags, ∀ idx,
    parsePyInt f.dataIndex = some idx →
      idx ∈ S ∨ isTruthyStr (resolveMedia f).2 = false

/-- A cycle input whose scroll attempt does not advance the offset. -/
def stalledInput (inp : CycleInput) : Prop :=
  ∃ cur newAct, inp.scroll = .ok cur newAct ∧ newAct ≤ cur

theorem scrapeCycle_good (st : ScrapeState) {inp : CycleInput}
    (hg : goodInput inp) : ∃ st1, scrapeCycle st inp = .ok st1 := by
  obtain ⟨frags, hs, hall⟩ := hg
  have hsort : sortVisible frags = some (List.insertionSort fragLe frags) := by
    unfold sortVisible
    rw [if_pos (List.all_eq_true.mpr (fun f hf => hall f hf))]
  unfold scrapeCycle
  rw [hs]
  dsimp only
  rw [hsort]
  exact ⟨_, rfl⟩

/-- A no-progress cycle keeps items and processed indices unchanged and
    strictly increments the streak. -/
theorem scrapeCycle_stall {st : ScrapeState} {inp : CycleInput} {frags : List Frag}
    (hs : inp.snapshot = some frags)
    (hall : ∀ f ∈ frags, (parsePyInt f.dataIndex).isSome = true)
    (hstable : ∀ f ∈ frags, ∀ idx, parsePyInt f.dataIndex = some idx →
        idx ∈ st.processed ∨ isTruthyStr (resolveMedia f).2 = false) :
    ∃ st1, scrapeCycle st inp = .ok st1 ∧ st1.items = st.items ∧
      st1.processed = st.processed ∧ st.noNew + 1 ≤ st1.noNew := by
  obtain ⟨st1, hc⟩ := scrapeCycle_good st ⟨frags, hs, hall⟩
  obtain ⟨frags2, sorted, hs2, hv2, hi, hp, _, hfn⟩ := scrapeCycle_ok hc
  rw [hs] at hs2
  cases hs2
  have hsort : sortVisible frags = some (List.insertionSort fragLe frags) := by
    unfold sortVisible
    rw [if_pos (List.all_eq_true.mpr (fun f hf => hall f hf))]
  rw [hsort] at hv2
  cases hv2
  have hstable2 : ∀ f ∈ List.insertionSort fragLe frags, ∀ idx,
      parsePyInt f.dataIndex = some idx →
      idx ∈ (scanStart st).processed ∨ isTruthyStr (resolveMedia f).2 = false :=
    fun f hf => hstable f ((List.mem_insertionSort fragLe).mp hf)
  obtain ⟨hbi, hbp, hbf⟩ :=
    scanBatch_stable inp.now (List.insertionSort fragLe frags) (scanStart st) hstable2
  refine ⟨st1, hc, ?_, ?_, ?_⟩
  · rw [hi, hbi]; rfl
  · rw [hp, hbp]; rfl
  · exact hfn (by rw [hbf]; rfl)

/-- The state trace of a run driven by the given collaborator,
    disregarding the exit condition; used only to phrase hypotheses
    about the synthetic collaborator of the termination property. -/
def stateAt (oracle : Nat → CycleInput) : Nat → ScrapeState
  | 0 => initState
  | n + 1 =>
    match scrapeCycle (stateAt oracle n) (oracle n) with
    | .ok st => st
    | .error _ => stateAt oracle n

/-- Once every remaining cycle is a no-progress cycle, the loop exits
    within `maxRetries - noNew` further cycles. -/
theorem runLoop_stall (oracle : Nat → CycleInput) : ∀ (fuel k : Nat) (st : ScrapeState),
    (∀ j, k ≤ j → goodInput (oracle j) ∧ noNewInput st.processed (oracle j)) →
    maxRetries - st.noNew < fuel →
    ∃ st1 n, runLoop oracle fuel k st = .done st1 n ∧
      n ≤ k + (maxRetries - st.noNew) := by
  intro fuel
  induction fuel with
  | zero => intro k st _ h; exact absurd h (Nat.not_lt_zero _)
  | succ fuel ih =>
    intro k st hyp hlt
    by_cases hdone : maxRetries ≤ st.noNew
    · exact ⟨st, k, runLoop_exit oracle fuel k st hdone, by omega⟩
    · obtain ⟨hg, hn⟩ := hyp k (le_refl k)
      obtain ⟨frags, hs, hall⟩ := hg
      obtain ⟨st1, hc, _, hproc, hnn⟩ :=
        scrapeCycle_stall hs hall (fun f hf idx hidx => hn frags hs f hf idx hidx)
      rw [runLoop_succ, if_neg hdone, hc]
      obtain ⟨st2, n, hrun, hle⟩ := ih (k + 1) st1
        (fun j hj => by
          rw [hproc]
          exact hyp j (by omega))
        (by
          have hm : maxRetries = 10 := rfl
          omega)
      refine ⟨st2, n, hrun, ?_⟩
      have hm : maxRetries = 10 := rfl
      omega

/-- Either the loop already exited within the first `N` cycles, or after
    `N` successful cycles it continues from the trace state. -/
theorem runLoop_reach (oracle : Nat → CycleInput)
    (hg : ∀ j, goodInput (oracle j)) : ∀ (N fuel : Nat), N ≤ fuel →
    (∃ st n, runLoop oracle fuel 0 initState = .done st n ∧ n ≤ N) ∨
    runLoop oracle fuel 0 initState =
      runLoop oracle (fuel - N) N (stateAt oracle N) := by
  intro N
  induction N with
  | zero =>
    intro fuel _
    right
    rfl
  | succ N ih =>
    intro fuel hfuel
    rcases ih fuel (by omega) with h | h
    · obtain ⟨st, n, h1, h2⟩ := h
      exact Or.inl ⟨st, n, h1, by omega⟩
    · obtain ⟨m, hm⟩ : ∃ m, fuel - N = m + 1 := ⟨fuel - N - 1, by omega⟩
      rw [hm] at h
      by_cases hdone : maxRetries ≤ (stateAt oracle N).noNew
      · refine Or.inl ⟨stateAt oracle N, N, ?_, by omega⟩
        rw [h, runLoop_exit _ _ _ _ hdone]
      · obtain ⟨st1, hc⟩ := scrapeCycle_good (stateAt oracle N) (hg N)
        right
        rw [h, runLoop_succ, if_neg hdone, hc]
        have hstN : stateAt oracle (N + 1) = st1 := by
          show (match scrapeCycle (stateAt oracle N) (oracle N) with
            | .ok st => st
            | .error _ => stateAt oracle N) = st1
          rw [hc]
        rw [hstN]
        have hmm : m = fuel - (N + 1) := by omega
        rw [hmm]

/-! ### Concrete fragments and collaborator traces -/

/-- A hydrated card at index 0 (iframe embed present). -/
def fragEmbed0 : Frag :=
  { dataIndex := "0",
    iframeSrc := some "https://www.youtube.com/embed/abc123?rel=0",
    thumbSrc := none, spans := [], tagSpans := [], descText := none }

/-- A hydrated card at index 5. -/
def fragEmbed5 : Frag :=
  { dataIndex := "5",
    iframeSrc := some "https://www.youtube.com/embed/vid5?rel=0",
    thumbSrc := none, spans := [], tagSpans := [], descText := none }

/-- A hydrated card at index 6. -/
def fragEmbed6 : Frag :=
  { dataIndex := "6",
    iframeSrc := some "https://www.youtube.com/embed/vid6?rel=0",
    thumbSrc := none, spans := [], tagSpans := [], descText := none }

/-- Index 5 before hydration: neither an iframe nor a thumbnail. -/
def fragBare5 : Frag :=
  { dataIndex := "5", iframeSrc := none, thumbSrc := none,
    spans := [], tagSpans := [], descText := none }

/-- A card whose likes value sits next to an unrecognised icon. -/
def fragUnknownIcon : Frag :=
  { dataIndex := "1",
    iframeSrc := some "https://www.youtube.com/embed/q1?rel=0",
    thumbSrc := none, spans := [⟨"7", some "M999 unknown icon"⟩],
    tagSpans := [], descText := none }

/-- A malformed card: the `data-index` attribute is not an integer. -/
def fragBadIndex : Frag :=
  { dataIndex := "abc",
    iframeSrc := some "https://www.youtube.com/embed/xyz?a",
    thumbSrc := none, spans := [], tagSpans := [], descText := none }

/-- Collaborator which always shows an empty snapshot while the scroll
    offset keeps advancing by the 800px step. -/
def advOracle : Nat → CycleInput :=
  fun k => { snapshot := some [], scroll := .ok (800 * k) (800 * k + 800), now := k }

/-- Collaborator on which index 5 is visible but unhydrated on cycle 0
    (while index 6 completes), hydrates on cycle 1, and nothing happens
    afterwards. -/
def lateOracle : Nat → CycleInput
  | 0 => { snapshot := some [fragBare5, fragEmbed6], scroll := .ok 0 800, now := 0 }
  | 1 => { snapshot := some [fragEmbed5], scroll := .ok 800 1600, now := 1 }
  | _ + 2 => { snapshot := some [], scroll := .ok 1600 1600, now := 2 }

/-- Collaborator whose snapshot call raises from cycle 1 on. -/
def failOracle : Nat → CycleInput
  | 0 => { snapshot := some [fragEmbed0], scroll := .ok 0 800, now := 0 }
  | _ + 1 => { snapshot := none, scroll := .ok 800 800, now := 1 }

/-- Collaborator always showing the malformed card. -/
def badOracle : Nat → CycleInput :=
  fun k => { snapshot := some [fragBadIndex], scroll := .ok 0 0, now := k }

/-- Collaborator showing nothing, with a stalled scroll. -/
def constOracle : Nat → CycleInput :=
  fun _ => { snapshot := some [], scroll := .ok 0 0, now := 0 }

/-- Final state of the run driven by `lateOracle`. -/
def lateFinal : ScrapeState :=
  ⟨[itemRecord 0 fragEmbed6, itemRecord 1 fragEmbed5], [5, 6], 6, 10⟩

/-- Strict ascent of the stored logical indices along a record list. -/
def ascendingKeys (l : List VideoInfo) : Prop :=
  List.Pairwise (fun r r2 => ∃ i j, recKey r = some i ∧ recKey r2 = some j ∧ i < j) l

/-! ### The claims -/

/-- C1, counterexample: driven by `advOracle`, whose scroll offset
    advances by 800px on every single cycle, the loop still exits (after
    exactly 10 cycles, the streak threshold), so at the moment the loop
    exits the offset is still advancing: the two scroll attempts
    preceding the exit, cycles 8 and 9, both strictly increased the
    offset.  Termination does not require the scroll-stall condition. -/
theorem C1_cex :
    scrape_items true advOracle 11 = .done (⟨[], [], -1, 10⟩ : ScrapeState) 10 ∧
    (advOracle 8).scroll = .ok 6400 7200 ∧
    (advOracle 9).scroll = .ok 7200 8000 ∧
    (6400 : Int) < 7200 ∧ (7200 : Int) < 8000 :=
  ⟨by decide, rfl, rfl, by decide, by decide⟩

/-- C1, amended: the loop transitions to `DONE` exactly when the
    no-progress streak has reached `max_retries` (10): every normal exit
    leaves `no_new_items_count ≥ 10`, and a state whose streak has
    reached 10 exits immediately, whatever the collaborator does.  A
    stalled scroll is not a separately required condition: it only
    contributes one extra streak increment on cycles without new
    items. -/
theorem C1_streak_exit :
    (∀ (oracle : Nat → CycleInput) (fuel k : Nat) (st st1 : ScrapeState) (n : Nat),
       runLoop oracle fuel k st = .done st1 n → maxRetries ≤ st1.noNew) ∧
    (∀ (oracle : Nat → CycleInput) (fuel k : Nat) (st : ScrapeState),
       maxRetries ≤ st.noNew → runLoop oracle (fuel + 1) k st = .done st k) :=
  ⟨fun oracle fuel k st st1 n h => runLoop_done_noNew oracle fuel k st st1 n h,
   fun oracle fuel k st h => runLoop_exit oracle fuel k st h⟩

theorem C1_streak_exit_witness :
    runLoop constOracle 5 3 (⟨[], [], -1, 10⟩ : ScrapeState) =
      .done (⟨[], [], -1, 10⟩ : ScrapeState) 3 :=
  C1_streak_exit.2 constOracle 4 3 (⟨[], [], -1, 10⟩ : ScrapeState) (by decide)

/-- C2, counterexample: on `lateOracle`, index 5 is incomplete on cycle
    0 while index 6 completes, and index 5 completes on cycle 1.  The
    run ends normally with the record for index 6 stored before the
    record for index 5, so the returned sequence is not strictly
    ascending by logical index. -/
theorem C2_cex :
    scrape_items true lateOracle 20 = .done lateFinal 7 ∧
    lateFinal.items.map recKey = [some 6, some 5] ∧
    ¬ ascendingKeys lateFinal.items := by
  refine ⟨by decide, by decide, ?_⟩
  intro hasc
  have h := (List.pairwise_cons.mp hasc).1 (itemRecord 1 fragEmbed5)
    (List.mem_cons_self _ _)
  obtain ⟨i, j, hi, hj, hlt⟩ := h
  rw [show recKey (itemRecord 0 fragEmbed6) = some 6 from by decide] at hi
  rw [show recKey (itemRecord 1 fragEmbed5) = some 5 from by decide] at hj
  cases hi
  cases hj
  omega

/-- C2, amended: a returned sequence never holds two records with the
    same logical index, and the records any single scan batch appends
    are strictly ascending by logical index (the snapshot is processed
    in sorted order); but the overall sequence is in completion order,
    so an item completing on a later cycle appears after higher indices
    captured earlier. -/
theorem C2_order :
    (∀ (pageOk : Bool) (oracle : Nat → CycleInput) (fuel : Nat)
       (st : ScrapeState) (n : Nat),
       scrape_items pageOk oracle fuel = .done st n → (st.items.map recKey).Nodup) ∧
    (∀ (now : Nat) (frags sorted : List Frag) (a : ScanAcc),
       sortVisible frags = some sorted →
       ascendingKeys ((scanBatch now sorted a).items.drop a.items.length)) := by
  constructor
  · intro pageOk oracle fuel st n h
    have hinv : sessionInv st := by
      unfold scrape_items at h
      split at h
      · exact runLoop_pres sessionInv
          (fun st2 inp st3 hP hc => scrapeCycle_inv hP hc)
          oracle fuel 0 initState sessionInv_init st n h
      · cases h; exact sessionInv_init
    exact hinv.2.2.1
  · intro now frags sorted a hv
    have hsorted : List.Pairwise fragLe sorted := by
      unfold sortVisible at hv
      split at hv
      · cases hv; exact List.sorted_insertionSort fragLe frags
      · cases hv
    exact scanBatch_new_ascending now sorted a hsorted

theorem C2_order_witness : (lateFinal.items.map recKey).Nodup :=
  C2_order.1 true lateOracle 20 lateFinal 7 (by decide)

/-- C3, counterexample: on `failOracle` the first cycle succeeds and
    stores one item, the second cycle's snapshot call fails outright.
    The run does abort, but the caller receives the propagated
    exception (`aborted`), not the accumulated partial list: the one
    stored item is discarded. -/
theorem C3_cex :
    scrape_items true failOracle 12 = .aborted .collaboratorFailure 1 ∧
    scrapeCycle initState (failOracle 0) =
      .ok (⟨[itemRecord 0 fragEmbed0], [0], 0, 0⟩ : ScrapeState) ∧
    (⟨[itemRecord 0 fragEmbed0], [0], 0, 0⟩ : ScrapeState).items.length = 1 :=
  ⟨by decide, rfl, rfl⟩

/-- C3, amended: a failing snapshot call mid-run aborts the run by
    propagating the exception, discarding the accumulated items rather
    than returning them; a failure inside the scroll/geometry block, by
    contrast, is caught, counted as one more no-progress attempt, and
    the cycle still completes normally. -/
theorem C3_abort_semantics :
    (∀ (st : ScrapeState) (inp : CycleInput), inp.snapshot = none →
       scrapeCycle st inp = .error .collaboratorFailure) ∧
    (∀ (oracle : Nat → CycleInput) (fuel k : Nat) (st : ScrapeState),
       st.noNew < maxRetries → (oracle k).snapshot = none →
       runLoop oracle (fuel + 1) k st = .aborted .collaboratorFailure k) ∧
    (∀ (st : ScrapeState) (inp : CycleInput) (frags sorted : List Frag),
       inp.snapshot = some frags → sortVisible frags = some sorted →
       inp.scroll = .scrollError → ∃ st1, scrapeCycle st inp = .ok st1) := by
  refine ⟨?_, ?_, ?_⟩
  · intro st inp h
    unfold scrapeCycle
    rw [h]
  · intro oracle fuel k st h hs
    exact runLoop_abort oracle fuel k st h hs
  · intro st inp frags sorted hs hv _
    unfold scrapeCycle
    rw [hs]
    dsimp only
    rw [hv]
    exact ⟨_, rfl⟩

theorem C3_abort_semantics_witness :
    scrapeCycle initState (failOracle 1) = .error .collaboratorFailure ∧
    runLoop failOracle 12 1 (⟨[itemRecord 0 fragEmbed0], [0], 0, 0⟩ : ScrapeState) =
      .aborted .collaboratorFailure 1 ∧
    (∃ st1, scrapeCycle initState
      (⟨some [], .scrollError, 0⟩ : CycleInput) = .ok st1) :=
  ⟨C3_abort_semantics.1 initState (failOracle 1) rfl,
   C3_abort_semantics.2.1 failOracle 11 1
     (⟨[itemRecord 0 fragEmbed0], [0], 0, 0⟩ : ScrapeState) (by decide) rfl,
   C3_abort_semantics.2.2 initState (⟨some [], .scrollError, 0⟩ : CycleInput)
     [] [] rfl rfl rfl⟩

/-- C4: a fragment whose `data-index` is not a parseable integer does
    raise out of the scan cycle.  `int('abc')` is the `ValueError` the
    per-item handler (lines 408-409) is written to swallow — and the
    model confirms the item loop skips such a fragment — but the sort
    key at line 386 evaluates `int` on the same attribute before the
    loop starts, outside every handler, so the whole run aborts and even
    previously accumulated items are lost. -/
theorem C4_malformed_index_aborts :
    parsePyInt fragBadIndex.dataIndex = none ∧
    processItem 0 (scanStart initState) fragBadIndex = scanStart initState ∧
    scrapeCycle initState (badOracle 0) = .error .indexNotParseable ∧
    scrape_items true badOracle 5 = .aborted .indexNotParseable 0 :=
  ⟨by decide, by decide, rfl, by decide⟩

/-- Helper: the session invariant holds of every normally returned
    final state. -/
theorem scrape_items_done_inv {pageOk : Bool} {oracle : Nat → CycleInput}
    {fuel : Nat} {st : ScrapeState} {n : Nat}
    (h : scrape_items pageOk oracle fuel = .done st n) : sessionInv st := by
  unfold scrape_items at h
  split at h
  · exact runLoop_pres sessionInv (fun st2 inp st3 hP hc => scrapeCycle_inv hP hc)
      oracle fuel 0 initState sessionInv_init st n h
  · cases h; exact sessionInv_init

/-- C5: an item is complete exactly when its resolved video id is
    truthy — `parse_item` returns a record iff the id resolution
    succeeds, and every returned record carries a non-null (and
    nonempty) `video_id`; consequently no record with a null video id
    ever appears in a normally returned item list.  Incomplete items are
    never stored: `parse_item` yields the `None` signal and the index
    stays unprocessed. -/
theorem C5_completeness_gate :
    (∀ (now : Nat) (f : Frag) (r : VideoInfo), parse_item now f = some r →
       ∃ s, r.video_id = some s ∧ s ≠ "") ∧
    (∀ (now : Nat) (f : Frag),
       (parse_item now f).isSome = isTruthyStr (resolveMedia f).2) ∧
    (∀ (pageOk : Bool) (oracle : Nat → CycleInput) (fuel : Nat)
       (st : ScrapeState) (n : Nat),
       scrape_items pageOk oracle fuel = .done st n →
       ∀ r ∈ st.items, ∃ s, r.video_id = some s ∧ s ≠ "") :=
  ⟨fun now f r h => parse_item_truthy_id h,
   fun now f => parse_item_isSome,
   fun pageOk oracle fuel st n h r hr => (scrape_items_done_inv h).2.2.2 r hr⟩

theorem C5_completeness_gate_witness :
    ∃ s, (itemRecord 0 fragEmbed0).video_id = some s ∧ s ≠ "" :=
  C5_completeness_gate.1 0 fragEmbed0 (itemRecord 0 fragEmbed0) (by decide)

/-- C6: session state evolves monotonically across every successful
    cycle — items are only appended, processed indices only inserted,
    the highest index seen never decreases — and the session invariant
    (every stored record's index is processed, and the highest index
    seen bounds every processed index) holds initially and is preserved
    by every cycle. -/
theorem C6_monotone_state :
    (∀ (st : ScrapeState) (inp : CycleInput) (st1 : ScrapeState),
       scrapeCycle st inp = .ok st1 →
       (∃ t, st1.items = st.items ++ t) ∧ st.processed ⊆ st1.processed ∧
       st.highest ≤ st1.highest) ∧
    (∀ (st : ScrapeState) (inp : CycleInput) (st1 : ScrapeState),
       sessionInv st → scrapeCycle st inp = .ok st1 → sessionInv st1) ∧
    sessionInv initState ∧
    (∀ st : ScrapeState, sessionInv st →
       (∀ r ∈ st.items, ∃ i, recKey r = some i ∧ i ∈ st.processed) ∧
       (∀ i ∈ st.processed, i ≤ st.highest)) :=
  ⟨fun st inp st1 hc => scrapeCycle_mono hc,
   fun st inp st1 h hc => scrapeCycle_inv h hc,
   sessionInv_init,
   fun st h => ⟨h.2.1, h.1⟩⟩

theorem C6_monotone_state_witness :
    (∃ t, (⟨[itemRecord 0 fragEmbed0], [0], 0, 0⟩ : ScrapeState).items =
       initState.items ++ t) ∧
    initState.processed ⊆
      (⟨[itemRecord 0 fragEmbed0], [0], 0, 0⟩ : ScrapeState).processed ∧
    initState.highest ≤
      (⟨[itemRecord 0 fragEmbed0], [0], 0, 0⟩ : ScrapeState).highest :=
  C6_monotone_state.1 initState (failOracle 0)
    (⟨[itemRecord 0 fragEmbed0], [0], 0, 0⟩ : ScrapeState) rfl

/-- C7: re-scanning is idempotent.  An index already in
    `processed_indices` (necessarily bounded by the highest index seen)
    makes the whole per-item iteration a no-op — extraction is skipped
    and no field changes — and re-running a whole scan batch over the
    same snapshot at any later clock changes nothing at all after the
    first pass. -/
theorem C7_rescan_idempotent :
    (∀ (now : Nat) (a : ScanAcc) (f : Frag) (idx : Int),
       parsePyInt f.dataIndex = some idx → idx ∈ a.processed →
       idx ≤ a.highest → processItem now a f = a) ∧
    (∀ (now now2 : Nat) (l : List Frag) (a : ScanAcc) (b : Bool),
       scanBatch now2 l { scanBatch now l a with foundNew := b } =
         { scanBatch now l a with foundNew := b }) := by
  constructor
  · intro now a f idx hp hm hh
    refine processItem_noop ?_
    intro j hj
    rw [hp] at hj
    cases hj
    exact ⟨hh, Or.inl hm⟩
  · intro now now2 l a b
    refine scanBatch_noop now2 l _ ?_
    intro f hf
    exact scannedOut_mono (fun x hx => hx) (le_refl _)
      (scanBatch_scannedOut now l a f hf)

theorem C7_rescan_idempotent_witness :
    processItem 3 (⟨[], [0], 5, false⟩ : ScanAcc) fragEmbed0 =
      (⟨[], [0], 5, false⟩ : ScanAcc) :=
  C7_rescan_idempotent.1 3 (⟨[], [0], 5, false⟩ : ScanAcc) fragEmbed0 0
    (by decide) (by decide) (by decide)

/-- C8: termination bound.  Given a collaborator that never raises and
    that, from cycle `N` on, produces no index that is both new
    (relative to what the run has processed by cycle `N`) and
    extractable, and whose scroll offset no longer advances, the loop
    exits normally within `N + max_retries` (N + 10) cycles. -/
theorem C8_termination (oracle : Nat → CycleInput) (N : Nat)
    (hg : ∀ j, goodInput (oracle j))
    (hnn : ∀ j, N ≤ j → noNewInput ((stateAt oracle N).processed) (oracle j))
    (hst : ∀ j, N ≤ j → stalledInput (oracle j)) :
    ∀ fuel, N + maxRetries < fuel →
    ∃ st n, runLoop oracle fuel 0 initState = .done st n ∧ n ≤ N + maxRetries := by
  intro fuel hfuel
  rcases runLoop_reach oracle hg N fuel (by omega) with h | h
  · obtain ⟨st, n, h1, h2⟩ := h
    exact ⟨st, n, h1, by omega⟩
  · obtain ⟨st1, n, hrun, hle⟩ := runLoop_stall oracle (fuel - N) N (stateAt oracle N)
      (fun j hj => ⟨hg j, hnn j hj⟩)
      (by
        have hsub : maxRetries - (stateAt oracle N).noNew ≤ maxRetries :=
          Nat.sub_le _ _
        omega)
    refine ⟨st1, n, ?_, ?_⟩
    · rw [h]; exact hrun
    · have hsub : maxRetries - (stateAt oracle N).noNew ≤ maxRetries :=
        Nat.sub_le _ _
      omega

theorem C8_termination_witness :
    ∃ st n, runLoop constOracle 11 0 initState = .done st n ∧ n ≤ 0 + maxRetries :=
  C8_termination constOracle 0
    (fun j => ⟨[], rfl, fun f hf => absurd hf (List.not_mem_nil f)⟩)
    (fun j _ => by
      intro frags hf f hmem idx hidx
      cases hf
      exact absurd hmem (List.not_mem_nil f))
    (fun j _ => ⟨0, 0, rfl, le_refl 0⟩)
    11 (by decide)

/-- C9: an engagement-counter icon whose path signature matches none of
    the four known fingerprints changes no counter (it is ignored
    without error); each of the four counters whose icon is never
    matched keeps its default 0 in the returned record — in particular
    an item whose likes icon is unrecognised is still returned with
    `likes = 0` — and whether `parse_item` returns a record at all
    never depends on the counter spans, only on media resolution, so no
    exception propagates because of icons. -/
theorem C9_unknown_icon_ignored :
    (∀ (c : Counters) (sp : CounterSpan),
       (∀ d, sp.prevPathD = some d →
         strContains d likesIcon = false ∧ strContains d commentsIcon = false ∧
         strContains d sharesIcon = false ∧ strContains d savesIcon = false) →
       applySpan c sp = c) ∧
    (∀ (now : Nat) (f : Frag) (r : VideoInfo),
       (∀ sp ∈ f.spans, ∀ d, sp.prevPathD = some d →
         strContains d likesIcon = false) →
       parse_item now f = some r → r.likes = 0) ∧
    (∀ (now : Nat) (f : Frag) (r : VideoInfo),
       (∀ sp ∈ f.spans, ∀ d, sp.prevPathD = some d →
         strContains d commentsIcon = false) →
       parse_item now f = some r → r.comments = 0) ∧
    (∀ (now : Nat) (f : Frag) (r : VideoInfo),
       (∀ sp ∈ f.spans, ∀ d, sp.prevPathD = some d →
         strContains d sharesIcon = false) →
       parse_item now f = some r → r.shares = 0) ∧
    (∀ (now : Nat) (f : Frag) (r : VideoInfo),
       (∀ sp ∈ f.spans, ∀ d, sp.prevPathD = some d →
         strContains d savesIcon = false) →
       parse_item now f = some r → r.saves = 0) ∧
    (∀ (now : Nat) (f : Frag),
       (parse_item now f).isSome = isTruthyStr (resolveMedia f).2) := by
  refine ⟨?_, ?_, ?_, ?_, ?_, ?_⟩
  · intro c sp h
    exact applySpan_unmatched h
  · intro now f r h hp
    rw [(parse_item_eq_some hp).2.2.2.1]
    exact foldl_applySpan_likes h
  · intro now f r h hp
    rw [(parse_item_eq_some hp).2.2.2.2.1]
    exact foldl_applySpan_comments h
  · intro now f r h hp
    rw [(parse_item_eq_some hp).2.2.2.2.2.1]
    exact foldl_applySpan_shares h
  · intro now f r h hp
    rw [(parse_item_eq_some hp).2.2.2.2.2.2.1]
    exact foldl_applySpan_saves h
  · intro now f
    exact parse_item_isSome

theorem C9_unknown_icon_ignored_witness :
    (itemRecord 0 fragUnknownIcon).likes = 0 :=
  C9_unknown_icon_ignored.2.1 0 fragUnknownIcon (itemRecord 0 fragUnknownIcon)
    (by
      intro sp hsp d hd
      have hsp2 : sp = (⟨"7", some "M999 unknown icon"⟩ : CounterSpan) := by
        simpa [fragUnknownIcon] using hsp
      subst hsp2
      cases hd
      decide)
    (by decide)

/-- C10: every record `parse_item` returns has a non-null `video_url`
    as well as a non-null `video_id`; the url is the iframe's src when
    the id was resolved from the iframe, and the derived nocookie embed
    URL when it was resolved from the thumbnail. -/
theorem C10_video_url_nonnull :
    ∀ (now : Nat) (f : Frag) (r : VideoInfo), parse_item now f = some r →
      r.video_id ≠ none ∧ r.video_url ≠ none ∧
      ((∃ src, f.iframeSrc = some src ∧ r.video_url = some src ∧
          r.video_id = extract_youtube_id src) ∨
       (∃ src cap, f.thumbSrc = some src ∧ findThumbCapture src.data = some cap ∧
          r.video_url = some (nocookieUrl ⟨cap⟩) ∧
          r.video_id = some (⟨cap⟩ : String))) := by
  intro now f r hp
  obtain ⟨hurl, hid, _, _, _, _, _, htr⟩ := parse_item_eq_some hp
  obtain ⟨s, hs, _⟩ := isTruthyStr_eq_true.mp htr
  rcases resolveMedia_cases htr with ⟨src, hif, hy, hres⟩ | ⟨src, cap, hth, hcap, hres⟩
  · refine ⟨?_, ?_, Or.inl ⟨src, hif, ?_, ?_⟩⟩
    · rw [hid, hs]; exact fun h => Option.noConfusion h
    · rw [hurl, hres]; exact fun h => Option.noConfusion h
    · rw [hurl, hres]
    · rw [hid, hres]
  · refine ⟨?_, ?_, Or.inr ⟨src, cap, hth, hcap, ?_, ?_⟩⟩
    · rw [hid, hs]; exact fun h => Option.noConfusion h
    · rw [hurl, hres]; exact fun h => Option.noConfusion h
    · rw [hurl, hres]
    · rw [hid, hres]

theorem C10_video_url_nonnull_witness :
    (itemRecord 0 fragEmbed0).video_id ≠ none ∧
    (itemRecord 0 fragEmbed0).video_url ≠ none ∧
    ((∃ src, fragEmbed0.iframeSrc = some src ∧
        (itemRecord 0 fragEmbed0).video_url = some src ∧
        (itemRecord 0 fragEmbed0).video_id = extract_youtube_id src) ∨
     (∃ src cap, fragEmbed0.thumbSrc = some src ∧
        findThumbCapture src.data = some cap ∧
        (itemRecord 0 fragEmbed0).video_url = some (nocookieUrl ⟨cap⟩) ∧
        (itemRecord 0 fragEmbed0).video_id = some (⟨cap⟩ : String))) :=
  C10_video_url_nonnull 0 fragEmbed0 (itemRecord 0 fragEmbed0) (by decide)

end OutlierDB
